import Mathlib

/-!
Verification of the evaluation-trace model of the prog-animations repository.

The repository animates the substitution-based evaluation of two toy OCaml
functions: a recursive factorial (class Fact in src/ocaml.py) and a
non-recursive square-of-predecessor (class SquareOfPred in src/ocaml.py and
in src/seminar.py). The animation scripts drive a scene-graph API; the
observable content of each scene is an ordered sequence of evaluation
events: binding a parameter in the call context (CallContext.add),
substituting an occurrence of a variable by its bound value
(CallContext.replace_occurrence), reducing a sub-expression to a displayed
value (replace_expr), selecting a branch of the conditional (the
strike-through animation in Fact.eval_call), and returning a value from a
call (the return statements of Fact.eval_call).

This file embeds those event sequences as Lean lists of Step values,
transcribed from the Python sources, and proves or refutes the claims of
the specification about them.  The presentation layer (positions, fades,
waits, camera motion, LaTeX text rendering) is out of scope, exactly as the
specification declares; each Step carries the displayed value rather than
the rendered text, the text being a fixed function of the value (str(v) for
integers, str(b).lower() for the boolean shown for the if condition).
-/

/-- Identifier of a sub-expression object in the two fixed scenes, mirroring
the VDict access paths the scripts use (for example call["if"]["cond"]["n"]
in Fact.eval_call, or def_instance["res"]["op2"] in
SquareOfPred.construct_call). -/
inductive Target where
  | ifCondN
  | ifCond
  | recCallArgN
  | recCallArg
  | recN
  | recLine
  | predDefValX
  | predDefVal
  | resOp2
  | resOp1
  | resLine
  deriving DecidableEq, Repr

/-- One observable unit of evaluation progress shown by the animations.

bind models CallContext.add (a name-value association appearing in the
context); substitute models CallContext.replace_occurrence (an occurrence of
a name replaced by the value of a context entry); reduce models replace_expr
collapsing a sub-expression to a displayed integer; reduceBool models the
replace_expr call that displays the if condition as true/false; branch
models the strike-through/keep animation selecting one arm of the
conditional (thenTaken is true when the base arm is kept); ret models a
value being returned from Fact.eval_call to its caller. -/
inductive Step where
  | bind (name : String) (value : Int)
  | substitute (name : String) (value : Int) (target : Target)
  | reduce (target : Target) (value : Int)
  | reduceBool (target : Target) (value : Bool)
  | branch (thenTaken : Bool)
  | ret (value : Int)
  deriving DecidableEq, Repr

/-- Recognises a bind step. -/
def Step.isBind : Step → Bool
  | .bind _ _ => true
  | _ => false

/-- Recognises a ret step. -/
def Step.isRet : Step → Bool
  | .ret _ => true
  | _ => false

/-- Recognises a branch step. -/
def Step.isBranch : Step → Bool
  | .branch _ => true
  | _ => false

/-- Recognises a branch step that keeps the then (base-case) arm. -/
def Step.isBranchThen : Step → Bool
  | .branch b => b
  | _ => false

/-- Recognises a step whose target lies inside the recursive arm
n * fact (n - 1) of the factorial definition. -/
def Step.isRecArm : Step → Bool
  | .substitute _ _ Target.recCallArgN => true
  | .substitute _ _ Target.recN => true
  | .reduce Target.recCallArg _ => true
  | .reduce Target.recLine _ => true
  | _ => false

namespace Ocaml

/-- The entries of a CallContext from src/ocaml.py: the ordered list of
name-value associations below the title line, in insertion order. -/
abbrev CallContext := List (String × Int)

/-- Transcribed from CallContext.add, src/ocaml.py lines 37-78: the method
builds the association and appends it to self.entries.  No duplicate-name
check of any kind is performed; the method cannot fail. -/
def CallContext.add (ctx : CallContext) (name : String) (value : Int) :
    CallContext :=
  ctx ++ [(name, value)]

namespace Fact

/-- The steps every level of Fact.eval_call emits before an arm is chosen
(src/ocaml.py lines 284-307): bind n to val via context.add, substitute the
occurrence of n in the if condition, reduce the condition to the displayed
boolean str(val == 0).lower(), then keep one arm and strike the other. -/
def condSteps (val : Int) : List Step :=
  [Step.bind "n" val,
   Step.substitute "n" val Target.ifCondN,
   Step.reduceBool Target.ifCond (decide (val = 0)),
   Step.branch (decide (val = 0))]

/-- The steps of the recursive arm before the nested call is evaluated
(src/ocaml.py lines 322-328): substitute the occurrence of n in the call
argument (n - 1), then reduce the argument to val - 1. -/
def recArgSteps (val : Int) : List Step :=
  [Step.substitute "n" val Target.recCallArgN,
   Step.reduce Target.recCallArg (val - 1)]

/-- The steps of the recursive arm after the nested call has returned
(src/ocaml.py lines 377-381): substitute the left occurrence of n in the
multiplication, reduce the whole line to res = val * recursive result, and
return res. -/
def recRetSteps (val res : Int) : List Step :=
  [Step.substitute "n" val Target.recN,
   Step.reduce Target.recLine res,
   Step.ret res]

/-- Transcription of Fact.eval_call, src/ocaml.py lines 274-381, for
non-negative arguments (the only ones on which the Python recursion
terminates).  Returns the emitted step sequence and the returned value.
The base case (val == 0) returns 1 after the condition steps; a recursive
level evaluates the call argument, recurses on val - 1, then substitutes
the left operand of the multiplication and reduces to val times the
recursive result. -/
def eval_call : Nat → List Step × Int
  | 0 => (condSteps 0 ++ [Step.ret 1], 1)
  | k + 1 =>
      (condSteps ((k : Int) + 1) ++ recArgSteps ((k : Int) + 1)
         ++ (eval_call k).1
         ++ recRetSteps ((k : Int) + 1) (((k : Int) + 1) * (eval_call k).2),
       ((k : Int) + 1) * (eval_call k).2)

/-- Fuelled transcription of Fact.eval_call on arbitrary integer arguments.
The Python code performs no argument check: whenever val is not 0 it emits
the condition steps and the call-argument steps and recurses on val - 1, so
on a negative argument the recursion never reaches the base case.  The fuel
parameter bounds the recursion depth (the Python stack): when it runs out,
the steps emitted so far are returned with no value, modelling the stack
overflow that interrupts a run mid-trace. -/
def evalCallFuel : Nat → Int → List Step × Option Int
  | 0, _ => ([], none)
  | fuel + 1, val =>
      if val = 0 then
        (condSteps val ++ [Step.ret 1], some 1)
      else
        ((condSteps val ++ recArgSteps val ++ (evalCallFuel fuel (val - 1)).1)
            ++ ((evalCallFuel fuel (val - 1)).2.elim []
                  fun res => recRetSteps val (val * res)),
         (evalCallFuel fuel (val - 1)).2.map fun res => val * res)

/-- The step sequence of the whole factorial scenario: Fact.construct_call
(src/ocaml.py lines 237-272) fades in the call text and then delegates the
entire evaluation to Fact.eval_call. -/
def traceFactorial (n : Nat) : List Step := (eval_call n).1

end Fact

namespace SquareOfPred

/-- Transcription of SquareOfPred.construct_call, src/ocaml.py lines
478-559: bind x to val (context.add), substitute the occurrence of x in
x - 1 (replace_occurrence), reduce x - 1 to val - 1 (replace_expr), bind
pred_x to that value (context.add), substitute the right then the left
occurrence of pred_x in pred_x * pred_x (replace_occurrence on op2, then on
op1), and reduce the product line to (val - 1) * (val - 1) (replace_expr).
Returns the step sequence and the final displayed value. -/
def construct_call (val : Int) : List Step × Int :=
  ([Step.bind "x" val,
    Step.substitute "x" val Target.predDefValX,
    Step.reduce Target.predDefVal (val - 1),
    Step.bind "pred_x" (val - 1),
    Step.substitute "pred_x" (val - 1) Target.resOp2,
    Step.substitute "pred_x" (val - 1) Target.resOp1,
    Step.reduce Target.resLine ((val - 1) * (val - 1))],
   (val - 1) * (val - 1))

end SquareOfPred

end Ocaml

namespace Seminar

/-- The entries of a CallContext from src/seminar.py, as in the ocaml.py
version (the two classes differ only in how the scene object is passed). -/
abbrev CallContext := List (String × Int)

/-- Transcribed from CallContext.add, src/seminar.py lines 36-78: identical
append with no duplicate-name check (the scene is an explicit parameter
there, a presentation-level difference only). -/
def CallContext.add (ctx : CallContext) (name : String) (value : Int) :
    CallContext :=
  ctx ++ [(name, value)]

namespace SquareOfPred

/-- Transcription of SquareOfPred.construct_call, src/seminar.py lines
197-278.  The sequence of evaluation events is the same as in the ocaml.py
version: bind x, substitute x in x - 1, reduce to val - 1, bind pred_x,
substitute op2 then op1, reduce the product. -/
def construct_call (val : Int) : List Step × Int :=
  ([Step.bind "x" val,
    Step.substitute "x" val Target.predDefValX,
    Step.reduce Target.predDefVal (val - 1),
    Step.bind "pred_x" (val - 1),
    Step.substitute "pred_x" (val - 1) Target.resOp2,
    Step.substitute "pred_x" (val - 1) Target.resOp1,
    Step.reduce Target.resLine ((val - 1) * (val - 1))],
   (val - 1) * (val - 1))

end SquareOfPred

end Seminar

namespace Ocaml

namespace Fact

/-- The value returned by eval_call is the factorial of its argument: the
base case returns 1 and each level multiplies by its own value of n. -/
theorem eval_call_snd (n : Nat) : (eval_call n).2 = (Nat.factorial n : Int) := by
  induction n with
  | zero => rfl
  | succ k ih =>
      show ((k : Int) + 1) * (eval_call k).2 = _
      rw [ih, Nat.factorial_succ]
      push_cast
      ring

/-- The factorial trace ends with the ret step of the outermost call,
carrying the factorial of the argument. -/
theorem traceFactorial_getLast (n : Nat) :
    (traceFactorial n).getLast? = some (Step.ret (Nat.factorial n : Int)) := by
  cases n with
  | zero => rfl
  | succ k =>
      have hres : ((k : Int) + 1) * (eval_call k).2 = (Nat.factorial (k + 1) : Int) := by
        rw [eval_call_snd, Nat.factorial_succ]
        push_cast
        ring
      show (condSteps _ ++ recArgSteps _ ++ (eval_call k).1 ++ recRetSteps _ _).getLast? = _
      rw [List.getLast?_append_of_ne_nil _ (by simp [recRetSteps])]
      show some (Step.ret (((k : Int) + 1) * (eval_call k).2)) = _
      rw [hres]

/-- Filtering the shared condition steps for bind keeps exactly the bind. -/
theorem condSteps_filter_isBind (val : Int) :
    (condSteps val).filter Step.isBind = [Step.bind "n" val] := rfl

/-- The condition steps contain no ret step. -/
theorem condSteps_filter_isRet (val : Int) :
    (condSteps val).filter Step.isRet = [] := rfl

/-- The condition steps contain exactly one branch step. -/
theorem condSteps_filter_isBranch (val : Int) :
    (condSteps val).filter Step.isBranch = [Step.branch (decide (val = 0))] := rfl

/-- The condition steps target the if line only, never the recursive arm. -/
theorem condSteps_filter_isRecArm (val : Int) :
    (condSteps val).filter Step.isRecArm = [] := rfl

/-- A level contributes a then-keeping branch step exactly when that level
evaluates n = 0 to true; an else-taking branch step is not kept by the
isBranchThen filter. -/
theorem condSteps_filter_isBranchThen (val : Int) :
    (condSteps val).filter Step.isBranchThen =
      if val = 0 then [Step.branch true] else [] := by
  by_cases h : val = 0
  · simp [condSteps, Step.isBranchThen, h, List.filter]
  · simp [condSteps, Step.isBranchThen, h, List.filter]

/-- The call-argument steps contain no then-keeping branch step. -/
theorem recArgSteps_filter_isBranchThen (val : Int) :
    (recArgSteps val).filter Step.isBranchThen = [] := rfl

/-- The unwinding steps contain no then-keeping branch step. -/
theorem recRetSteps_filter_isBranchThen (val res : Int) :
    (recRetSteps val res).filter Step.isBranchThen = [] := rfl

/-- The call-argument steps contain no bind step. -/
theorem recArgSteps_filter_isBind (val : Int) :
    (recArgSteps val).filter Step.isBind = [] := rfl

/-- The call-argument steps contain no ret step. -/
theorem recArgSteps_filter_isRet (val : Int) :
    (recArgSteps val).filter Step.isRet = [] := rfl

/-- The call-argument steps contain no branch step. -/
theorem recArgSteps_filter_isBranch (val : Int) :
    (recArgSteps val).filter Step.isBranch = [] := rfl

/-- Both call-argument steps belong to the recursive arm. -/
theorem recArgSteps_filter_isRecArm (val : Int) :
    (recArgSteps val).filter Step.isRecArm = recArgSteps val := rfl

/-- The unwinding steps contain no bind step. -/
theorem recRetSteps_filter_isBind (val res : Int) :
    (recRetSteps val res).filter Step.isBind = [] := rfl

/-- The unwinding steps contain exactly one ret step. -/
theorem recRetSteps_filter_isRet (val res : Int) :
    (recRetSteps val res).filter Step.isRet = [Step.ret res] := rfl

/-- The unwinding steps contain no branch step. -/
theorem recRetSteps_filter_isBranch (val res : Int) :
    (recRetSteps val res).filter Step.isBranch = [] := rfl

/-- The substitution and reduction of the unwinding belong to the recursive
arm; the ret step belongs to the call itself. -/
theorem recRetSteps_filter_isRecArm (val res : Int) :
    (recRetSteps val res).filter Step.isRecArm =
      [Step.substitute "n" val Target.recN, Step.reduce Target.recLine res] := rfl

/-- The factorial trace for argument n contains exactly n + 1 bind steps,
one per call level. -/
theorem traceFactorial_count_bind (n : Nat) :
    ((traceFactorial n).filter Step.isBind).length = n + 1 := by
  induction n with
  | zero => rfl
  | succ k ih =>
      have ih' : (((eval_call k).1).filter Step.isBind).length = k + 1 := ih
      show ((condSteps _ ++ recArgSteps _ ++ (eval_call k).1 ++ recRetSteps _ _).filter
          Step.isBind).length = _
      simp only [List.filter_append, List.length_append, condSteps_filter_isBind,
        recArgSteps_filter_isBind, recRetSteps_filter_isBind, ih']
      simp only [List.length_nil, List.length_cons]
      omega

/-- The factorial trace for argument n contains exactly n + 1 ret steps,
one per call level. -/
theorem traceFactorial_count_ret (n : Nat) :
    ((traceFactorial n).filter Step.isRet).length = n + 1 := by
  induction n with
  | zero => rfl
  | succ k ih =>
      have ih' : (((eval_call k).1).filter Step.isRet).length = k + 1 := ih
      show ((condSteps _ ++ recArgSteps _ ++ (eval_call k).1 ++ recRetSteps _ _).filter
          Step.isRet).length = _
      simp only [List.filter_append, List.length_append, condSteps_filter_isRet,
        recArgSteps_filter_isRet, recRetSteps_filter_isRet, ih']
      simp only [List.length_nil, List.length_cons]
      omega

/-- The factorial trace for argument n contains exactly n + 1 branch steps,
one per evaluation of the conditional. -/
theorem traceFactorial_count_branch (n : Nat) :
    ((traceFactorial n).filter Step.isBranch).length = n + 1 := by
  induction n with
  | zero => rfl
  | succ k ih =>
      have ih' : (((eval_call k).1).filter Step.isBranch).length = k + 1 := ih
      show ((condSteps _ ++ recArgSteps _ ++ (eval_call k).1 ++ recRetSteps _ _).filter
          Step.isBranch).length = _
      simp only [List.filter_append, List.length_append, condSteps_filter_isBranch,
        recArgSteps_filter_isBranch, recRetSteps_filter_isBranch, ih']
      simp only [List.length_nil, List.length_cons]
      omega

/-- Exactly one branch step of the factorial trace keeps the then (base)
arm: the deepest level, where n is 0. -/
theorem traceFactorial_count_branchThen (n : Nat) :
    ((traceFactorial n).filter Step.isBranchThen).length = 1 := by
  induction n with
  | zero => rfl
  | succ k ih =>
      have ih' : (((eval_call k).1).filter Step.isBranchThen).length = 1 := ih
      have hne : ((k : Int) + 1) ≠ 0 := by omega
      show ((condSteps _ ++ recArgSteps _ ++ (eval_call k).1 ++ recRetSteps _ _).filter
          Step.isBranchThen).length = _
      simp only [List.filter_append, List.length_append, condSteps_filter_isBranchThen,
        if_neg hne, recArgSteps_filter_isBranchThen, recRetSteps_filter_isBranchThen, ih']
      simp

/-- The factorial trace for argument n contains exactly 4 * n steps
targeting the recursive arm: the levels that take the else branch
contribute four each, the base level none. -/
theorem traceFactorial_count_recArm (n : Nat) :
    ((traceFactorial n).filter Step.isRecArm).length = 4 * n := by
  induction n with
  | zero => rfl
  | succ k ih =>
      have ih' : (((eval_call k).1).filter Step.isRecArm).length = 4 * k := ih
      show ((condSteps _ ++ recArgSteps _ ++ (eval_call k).1 ++ recRetSteps _ _).filter
          Step.isRecArm).length = _
      simp only [List.filter_append, List.length_append, condSteps_filter_isRecArm,
        recArgSteps_filter_isRecArm, recRetSteps_filter_isRecArm, ih']
      simp only [List.length_nil, List.length_cons, recArgSteps]
      omega

end Fact

end Ocaml

namespace Ocaml

namespace Fact

/-- With more fuel than the argument, the fuelled evaluation completes and
agrees with the structural transcription: the recursion depth of
Fact.eval_call on a non-negative argument n is exactly n + 1. -/
theorem evalCallFuel_of_lt : ∀ (n fuel : Nat), n < fuel →
    evalCallFuel fuel (n : Int) = ((eval_call n).1, some ((eval_call n).2))
  | _, 0, h => absurd h (Nat.not_lt_zero _)
  | n, fuel + 1, h => by
      cases n with
      | zero => simp [evalCallFuel, eval_call]
      | succ k =>
          have hne : ((k + 1 : Nat) : Int) ≠ 0 := by
            push_cast
            omega
          have hcast : (((k + 1 : Nat) : Int) - 1) = (k : Int) := by
            push_cast
            ring
          have ih := evalCallFuel_of_lt k fuel (by omega)
          simp only [evalCallFuel, if_neg hne, hcast, ih]
          simp only [eval_call, Option.elim_some, Option.map_some]
          push_cast
          simp [List.append_assoc]

/-- On a negative argument the fuelled evaluation never produces a value:
the guard val = 0 is never reached and every unit of fuel is consumed by a
further recursive level. -/
theorem evalCallFuel_neg_none : ∀ (fuel : Nat) (val : Int), val < 0 →
    (evalCallFuel fuel val).2 = none
  | 0, _, _ => rfl
  | fuel + 1, val, h => by
      have hne : val ≠ 0 := by omega
      have ih := evalCallFuel_neg_none fuel (val - 1) (by omega)
      simp [evalCallFuel, if_neg hne, ih]

/-- On a negative argument (and any positive fuel bound) the very first
emitted step is the binding of n: steps are produced before the run is
interrupted. -/
theorem evalCallFuel_neg_head (fuel : Nat) (val : Int) (h : val < 0) :
    (evalCallFuel (fuel + 1) val).1.head? = some (Step.bind "n" val) := by
  have hne : val ≠ 0 := by omega
  simp [evalCallFuel, if_neg hne, condSteps]

end Fact

end Ocaml

/-- C1: for every non-negative integer n, the factorial trace's final
numeric value equals n factorial (with 0 factorial = 1): the value returned
by eval_call is Nat.factorial n, and the last step of the trace is the ret
step carrying that value. -/
theorem C1_factorial_final_value (n : Nat) :
    (Ocaml.Fact.eval_call n).2 = (Nat.factorial n : Int) ∧
    (Ocaml.Fact.traceFactorial n).getLast? =
      some (Step.ret (Nat.factorial n : Int)) :=
  ⟨Ocaml.Fact.eval_call_snd n, Ocaml.Fact.traceFactorial_getLast n⟩

/-- C2: for every integer x, the squareOfPred trace's final numeric value
equals (x - 1) * (x - 1): the returned value is that product and the last
step is the reduction of the product line to it. -/
theorem C2_square_of_pred_final_value (x : Int) :
    (Ocaml.SquareOfPred.construct_call x).2 = (x - 1) * (x - 1) ∧
    (Ocaml.SquareOfPred.construct_call x).1.getLast? =
      some (Step.reduce Target.resLine ((x - 1) * (x - 1))) :=
  ⟨rfl, rfl⟩

/-- C3 counterexample: tracing factorial with argument -1 does not fail
before any step is produced, contrary to the claim: already within five
levels of fuel the trace is non-empty (steps are emitted) while no value is
ever returned (and no InvalidArgumentError exists anywhere in the code). -/
theorem C3_counterexample :
    (Ocaml.Fact.evalCallFuel 5 (-1)).1 ≠ [] ∧
    (Ocaml.Fact.evalCallFuel 5 (-1)).2 = none := by
  decide

/-- C3 amended: the code performs no validation of the argument: on a
negative argument no error is reported, the trace starts with the Bind step
for n, and the recursion never reaches the base case, so no fuel bound
suffices for the evaluation to complete. -/
theorem C3_negative_no_validation (fuel : Nat) (val : Int) (h : val < 0) :
    (Ocaml.Fact.evalCallFuel fuel val).2 = none ∧
    (Ocaml.Fact.evalCallFuel (fuel + 1) val).1.head? =
      some (Step.bind "n" val) :=
  ⟨Ocaml.Fact.evalCallFuel_neg_none fuel val h,
   Ocaml.Fact.evalCallFuel_neg_head fuel val h⟩

/-- C3 witness: the amended statement instantiated at fuel 3 and val -1. -/
theorem C3_witness :
    ((-1 : Int) < 0) ∧
      ((Ocaml.Fact.evalCallFuel 3 (-1)).2 = none ∧
       (Ocaml.Fact.evalCallFuel 4 (-1)).1.head? =
         some (Step.bind "n" (-1))) :=
  ⟨by decide, C3_negative_no_validation 3 (-1) (by decide)⟩

/-- C4 counterexample: the claimed left-before-right evaluation order is
false on both scenarios.  In the trace of fact applied to 1, the first step
of the recursive call (binding n to 0 at the nested level) occurs before
the substitution of the left occurrence of n in the multiplication; in the
squareOfPred trace for argument 5, the right occurrence of pred_x (op2) is
substituted before the left one (op1). -/
theorem C4_counterexample :
    List.indexOf (Step.bind "n" 0) (Ocaml.Fact.eval_call 1).1 <
      List.indexOf (Step.substitute "n" 1 Target.recN)
        (Ocaml.Fact.eval_call 1).1 ∧
    List.indexOf (Step.substitute "pred_x" 4 Target.resOp2)
        (Ocaml.SquareOfPred.construct_call 5).1 <
      List.indexOf (Step.substitute "pred_x" 4 Target.resOp1)
        (Ocaml.SquareOfPred.construct_call 5).1 := by
  decide

/-- C4 amended: for the multiplications of both scenarios, the right
operand is evaluated first.  In the factorial trace the level for a
positive value emits the condition steps, then the call-argument steps and
the entire nested trace (the right operand), and only afterwards the
substitution of the left occurrence of n followed by the single Reduce step
of the multiplication; in the squareOfPred trace the right occurrence of
pred_x (op2) is substituted at position 4, the left one (op1) at position
5, and the single Reduce step of the product comes last, at position 6. -/
theorem C4_right_operand_first (k : Nat) (x : Int) :
    Ocaml.Fact.traceFactorial (k + 1) =
      Ocaml.Fact.condSteps ((k : Int) + 1)
        ++ Ocaml.Fact.recArgSteps ((k : Int) + 1)
        ++ Ocaml.Fact.traceFactorial k
        ++ Ocaml.Fact.recRetSteps ((k : Int) + 1)
            (((k : Int) + 1) * (Ocaml.Fact.eval_call k).2) ∧
    (Ocaml.SquareOfPred.construct_call x).1[4]? =
      some (Step.substitute "pred_x" (x - 1) Target.resOp2) ∧
    (Ocaml.SquareOfPred.construct_call x).1[5]? =
      some (Step.substitute "pred_x" (x - 1) Target.resOp1) ∧
    (Ocaml.SquareOfPred.construct_call x).1[6]? =
      some (Step.reduce Target.resLine ((x - 1) * (x - 1))) :=
  ⟨rfl, rfl, rfl, rfl⟩

/-- C5 counterexample: binding a name that already exists in the frame does
not fail: CallContext.add has no duplicate check, so adding x twice
succeeds and leaves the frame with two entries named x. -/
theorem C5_counterexample :
    Ocaml.CallContext.add [("x", 5)] "x" 6 = [("x", 5), ("x", 6)] ∧
    ((Ocaml.CallContext.add [("x", 5)] "x" 6).map Prod.fst).count "x" = 2 := by
  decide

/-- C5 amended: binding any name, fresh or already present, succeeds:
the operation appends the pair, so the result starts with the old frame
unchanged, ends with the new pair, and is one entry longer; the seminar.py
version of add behaves identically.  No DuplicateBindingError exists. -/
theorem C5_add_always_appends (ctx : Ocaml.CallContext) (name : String)
    (value : Int) :
    (Ocaml.CallContext.add ctx name value).take ctx.length = ctx ∧
    (Ocaml.CallContext.add ctx name value).getLast? = some (name, value) ∧
    (Ocaml.CallContext.add ctx name value).length = ctx.length + 1 ∧
    Seminar.CallContext.add ctx name value =
      Ocaml.CallContext.add ctx name value := by
  refine ⟨?_, ?_, ?_, rfl⟩
  · simp [Ocaml.CallContext.add, List.take_left]
  · simp [Ocaml.CallContext.add, List.getLast?_concat]
  · simp [Ocaml.CallContext.add]

/-- C6: for every non-negative integer n, the factorial trace contains
exactly n + 1 Bind steps and exactly n + 1 Return steps, one pair per call
level including the base case. -/
theorem C6_bind_return_pairs (n : Nat) :
    ((Ocaml.Fact.traceFactorial n).filter Step.isBind).length = n + 1 ∧
    ((Ocaml.Fact.traceFactorial n).filter Step.isRet).length = n + 1 :=
  ⟨Ocaml.Fact.traceFactorial_count_bind n,
   Ocaml.Fact.traceFactorial_count_ret n⟩

/-- C7: each of the n + 1 evaluations of the conditional emits exactly one
Branch step; exactly one of them (the base level, where the condition
n = 0 evaluates to true) keeps the then arm; steps from the recursive arm
appear exactly four per else level (4 * n in total) and the base-case trace
consists of the condition steps followed only by the returned 1, with no
recursive-arm step; and the branch step of a level carries the same boolean
the condition reduced to (then exactly when that boolean is true). -/
theorem C7_conditional_single_branch (n : Nat) :
    ((Ocaml.Fact.traceFactorial n).filter Step.isBranch).length = n + 1 ∧
    ((Ocaml.Fact.traceFactorial n).filter Step.isBranchThen).length = 1 ∧
    ((Ocaml.Fact.traceFactorial n).filter Step.isRecArm).length = 4 * n ∧
    Ocaml.Fact.traceFactorial 0 = Ocaml.Fact.condSteps 0 ++ [Step.ret 1] ∧
    ∀ val : Int, Ocaml.Fact.condSteps val =
      [Step.bind "n" val, Step.substitute "n" val Target.ifCondN,
       Step.reduceBool Target.ifCond (decide (val = 0)),
       Step.branch (decide (val = 0))] :=
  ⟨Ocaml.Fact.traceFactorial_count_branch n,
   Ocaml.Fact.traceFactorial_count_branchThen n,
   Ocaml.Fact.traceFactorial_count_recArm n,
   rfl, fun _ => rfl⟩

/-- C8: for every non-negative integer argument, tracing either scenario
terminates with a finite step sequence: fuel n + 1 (the exact recursion
depth) makes the fuelled factorial evaluation complete and agree with the
structural transcription, and the squareOfPred trace is a fixed list of
seven steps. -/
theorem C8_termination (n : Nat) (x : Int) :
    Ocaml.Fact.evalCallFuel (n + 1) (n : Int) =
      ((Ocaml.Fact.eval_call n).1, some ((Ocaml.Fact.eval_call n).2)) ∧
    (Ocaml.SquareOfPred.construct_call x).1.length = 7 :=
  ⟨Ocaml.Fact.evalCallFuel_of_lt n (n + 1) (Nat.lt_succ_self n), rfl⟩

/-- C9: tracing is deterministic: the trace is a function of the argument
alone, so two runs with equal arguments produce identical step sequences,
both in the structural transcription and in the fuelled one. -/
theorem C9_determinism (n₁ n₂ fuel : Nat) (h : n₁ = n₂) :
    Ocaml.Fact.traceFactorial n₁ = Ocaml.Fact.traceFactorial n₂ ∧
    Ocaml.Fact.evalCallFuel fuel (n₁ : Int) =
      Ocaml.Fact.evalCallFuel fuel (n₂ : Int) := by
  rw [h]
  exact ⟨rfl, rfl⟩

/-- C9 witness: the determinism statement instantiated at argument 4. -/
theorem C9_witness :
    (4 : Nat) = 4 ∧
      (Ocaml.Fact.traceFactorial 4 = Ocaml.Fact.traceFactorial 4 ∧
       Ocaml.Fact.evalCallFuel 6 ((4 : Nat) : Int) =
         Ocaml.Fact.evalCallFuel 6 ((4 : Nat) : Int)) :=
  ⟨rfl, C9_determinism 4 4 6 rfl⟩

/-- C10: the two versions of the squareOfPred scenario, in src/ocaml.py and
in src/seminar.py, are equivalent: for the same integer argument they
produce the same step sequence (bind x, substitute x, reduce x - 1, bind
pred_x, substitute op2 then op1, reduce the product) and the same final
value (val - 1) * (val - 1). -/
theorem C10_square_of_pred_versions_agree (val : Int) :
    Ocaml.SquareOfPred.construct_call val =
      Seminar.SquareOfPred.construct_call val := rfl
